import Mathlib

/-!
Shallow embedding of the `timedmap` library: a map with expiring key-value
pairs (`src/timedmap.rs`, `src/value.rs`, `src/time.rs`).

Modelling choices:
* Instants and durations are natural numbers (`TimeSource` instants are totally
  ordered and support duration addition; `Instant + Duration` on `Nat` is `+`).
* `TS::now()` is passed explicitly: every operation receives the `now : Nat` it
  observes during its critical sections.  Within a single operation the Rust
  code may read the clock more than once (e.g. `get` checks expiry and the
  nested `remove` re-checks); the sequential model uses the same instant for
  all reads inside one call, which matches any execution in which the clock
  does not advance mid-call.
* The `RwLock<HashMap<K, Value<V, TS>>>` table is modelled as an association
  list together with the well-formedness predicate `TimedMap.WF` (keys occur
  at most once), which every `HashMap` satisfies.  Operations that mutate the
  table as a side effect return the updated map alongside their result.
-/

namespace Timedmap

variable {K V : Type} [DecidableEq K]

/-- Embedding of `Value<V, TS>` from `src/value.rs`: a stored value together
with its expiry instant. -/
structure Value (V : Type) where
  value : V
  expires : Nat
deriving DecidableEq, Repr

/-- `Value::new`: the expiry is `TS::now() + lifetime`. -/
def Value.new (value : V) (lifetime now : Nat) : Value V :=
  ⟨value, now + lifetime⟩

/-- `Value::is_expired`: `TS::now() > self.expires` (strict). -/
def Value.is_expired (v : Value V) (now : Nat) : Bool :=
  decide (now > v.expires)

/-- Modelled from the spec: `is_expired_at` is called by `TimedMap::cleanup`
(src/timedmap.rs line 214) but its definition is not present in
`src/value.rs`; the spec defines it as the same strict comparison as
`is_expired` against a caller-supplied instant: `at > deadline`. -/
def Value.is_expired_at (v : Value V) (t : Nat) : Bool :=
  decide (t > v.expires)

/-- `Value::set_expiry`: `self.expires = TS::now() + lifetime`. -/
def Value.set_expiry (v : Value V) (lifetime now : Nat) : Value V :=
  { v with expires := now + lifetime }

/-- `Value::add_expiry`: `self.expires += lifetime`. -/
def Value.add_expiry (v : Value V) (lifetime : Nat) : Value V :=
  { v with expires := v.expires + lifetime }

/-- `Value::value_checked`: the inner value, unless expired. -/
def Value.value_checked (v : Value V) (now : Nat) : Option V :=
  if v.is_expired now then none else some v.value

/-- `HashMap::get` on the association-list table: the value stored for `key`,
if any. -/
def lookupKey (key : K) : List (K × Value V) → Option (Value V)
  | [] => none
  | p :: rest => if p.1 = key then some p.2 else lookupKey key rest

/-- The effect of `HashMap::remove` on the table: drop every pair stored under
`key` (at most one, for a well-formed table). -/
def eraseKey (key : K) : List (K × Value V) → List (K × Value V)
  | [] => []
  | p :: rest => if p.1 = key then eraseKey key rest else p :: eraseKey key rest

/-- The effect of `HashMap::insert` on the table: store `v` under `key`,
replacing any previous entry. -/
def insertPair (key : K) (v : Value V) (l : List (K × Value V)) :
    List (K × Value V) :=
  (key, v) :: eraseKey key l

/-- Embedding of `TimedMap<K, V, TS>` from `src/timedmap.rs`. -/
structure TimedMap (K V : Type) where
  inner : List (K × Value V)
deriving DecidableEq, Repr

/-- `TimedMap::new` / `new_with_timesource`: the empty table. -/
def TimedMap.new : TimedMap K V :=
  ⟨[]⟩

/-- Well-formedness of the table: each key occurs at most once, as in any
`HashMap`. -/
def TimedMap.WF (m : TimedMap K V) : Prop :=
  (m.inner.map Prod.fst).Nodup

/-- `TimedMap::insert`: wrap the value with deadline `now + lifetime` and
store it, overwriting any previous entry. -/
def TimedMap.insert (m : TimedMap K V) (key : K) (value : V)
    (lifetime now : Nat) : TimedMap K V :=
  ⟨insertPair key (Value.new value lifetime now) m.inner⟩

/-- `TimedMap::get_value_unchecked`: raw lookup, no expiry check, no
eviction. -/
def TimedMap.get_value_unchecked (m : TimedMap K V) (key : K) :
    Option (Value V) :=
  lookupKey key m.inner

/-- `TimedMap::remove`: remove unconditionally if present; return the stored
value only when it was not expired (`value_checked`). -/
def TimedMap.remove (m : TimedMap K V) (key : K) (now : Nat) :
    Option V × TimedMap K V :=
  match lookupKey key m.inner with
  | none => (none, m)
  | some v => (v.value_checked now, ⟨eraseKey key m.inner⟩)

/-- `TimedMap::get_value`: raw lookup; when the entry is expired, remove it
(the nested `self.remove(key)` call) and report absent. -/
def TimedMap.get_value (m : TimedMap K V) (key : K) (now : Nat) :
    Option (Value V) × TimedMap K V :=
  match m.get_value_unchecked key with
  | none => (none, m)
  | some v =>
    if v.is_expired now then (none, (m.remove key now).2) else (some v, m)

/-- `TimedMap::get`: `get_value(key).map(|v| v.value())`. -/
def TimedMap.get (m : TimedMap K V) (key : K) (now : Nat) :
    Option V × TimedMap K V :=
  ((m.get_value key now).1.map Value.value, (m.get_value key now).2)

/-- `TimedMap::contains`: `get(key).is_some()`, with the same eviction side
effect. -/
def TimedMap.contains (m : TimedMap K V) (key : K) (now : Nat) :
    Bool × TimedMap K V :=
  ((m.get key now).1.isSome, (m.get key now).2)

/-- `TimedMap::refresh`: via the checked `get_value` path; on success store
the wrapper back with deadline reset to `now + new_lifetime`. -/
def TimedMap.refresh (m : TimedMap K V) (key : K) (new_lifetime now : Nat) :
    Bool × TimedMap K V :=
  match m.get_value key now with
  | (none, m1) => (false, m1)
  | (some v, m1) => (true, ⟨insertPair key (v.set_expiry new_lifetime now) m1.inner⟩)

/-- `TimedMap::extend`: via the checked `get_value` path; on success store
the wrapper back with `added_lifetime` added to its deadline. -/
def TimedMap.extend (m : TimedMap K V) (key : K) (added_lifetime now : Nat) :
    Bool × TimedMap K V :=
  match m.get_value key now with
  | (none, m1) => (false, m1)
  | (some v, m1) => (true, ⟨insertPair key (v.add_expiry added_lifetime) m1.inner⟩)

/-- `TimedMap::len`: count of entries not expired at call time. -/
def TimedMap.len (m : TimedMap K V) (now : Nat) : Nat :=
  (m.inner.filter (fun p => !(p.2.is_expired now))).length

/-- `TimedMap::is_empty`: `m.len() == 0` on the raw `HashMap`, with no
expiry filtering. -/
def TimedMap.is_empty (m : TimedMap K V) : Bool :=
  decide (m.inner.length = 0)

/-- `TimedMap::clear`: unconditionally empty the table. -/
def TimedMap.clear (_m : TimedMap K V) : TimedMap K V :=
  ⟨[]⟩

/-- `TimedMap::snapshot`: all non-expired pairs, values copied out. -/
def TimedMap.snapshot (m : TimedMap K V) (now : Nat) : List (K × V) :=
  (m.inner.filter (fun p => !(p.2.is_expired now))).map
    (fun p => (p.1, p.2.value))

/-- `Cleanup::cleanup` for `TimedMap`: one snapshot `now`; collect the keys
of all entries expired at `now`; if none, return with the table untouched;
otherwise remove each collected key. -/
def TimedMap.cleanup (m : TimedMap K V) (now : Nat) : TimedMap K V :=
  let keys := (m.inner.filter (fun p => p.2.is_expired_at now)).map Prod.fst
  if keys.isEmpty then m
  else ⟨keys.foldl (fun l k => eraseKey k l) m.inner⟩

theorem TimedMap.eq_of_inner {a b : TimedMap K V} (h : a.inner = b.inner) :
    a = b := by
  cases a; cases b; simpa using h

theorem lookupKey_eraseKey_self (key : K) (l : List (K × Value V)) :
    lookupKey key (eraseKey key l) = none := by
  induction l with
  | nil => rfl
  | cons p rest ih =>
    by_cases h : p.1 = key
    · simpa [eraseKey, h] using ih
    · simpa [eraseKey, lookupKey, h] using ih

theorem lookupKey_eraseKey_ne (key k : K) (l : List (K × Value V))
    (h : k ≠ key) : lookupKey k (eraseKey key l) = lookupKey k l := by
  induction l with
  | nil => rfl
  | cons p rest ih =>
    by_cases hp : p.1 = key
    · have hpk : ¬ p.1 = k := fun hk => h (by rw [← hk, hp])
      rw [eraseKey, if_pos hp, lookupKey, if_neg hpk, ih]
    · rw [eraseKey, if_neg hp, lookupKey, lookupKey]
      by_cases hk : p.1 = k
      · rw [if_pos hk, if_pos hk]
      · rw [if_neg hk, if_neg hk, ih]

theorem mem_eraseKey {p : K × Value V} (key : K) (l : List (K × Value V)) :
    p ∈ eraseKey key l ↔ p ∈ l ∧ p.1 ≠ key := by
  induction l with
  | nil => simp [eraseKey]
  | cons q rest ih =>
    by_cases h : q.1 = key
    · rw [eraseKey]
      simp only [if_pos h, ih, List.mem_cons]
      constructor
      · exact fun ⟨hm, hne⟩ => ⟨Or.inr hm, hne⟩
      · rintro ⟨hq | hm, hne⟩
        · exact absurd (hq ▸ h) hne
        · exact ⟨hm, hne⟩
    · rw [eraseKey]
      simp only [if_neg h, List.mem_cons, ih]
      constructor
      · rintro (hq | ⟨hm, hne⟩)
        · exact ⟨Or.inl hq, hq ▸ h⟩
        · exact ⟨Or.inr hm, hne⟩
      · rintro ⟨hq | hm, hne⟩
        · exact Or.inl hq
        · exact Or.inr ⟨hm, hne⟩

theorem lookupKey_some_mem {key : K} {v : Value V} {l : List (K × Value V)}
    (h : lookupKey key l = some v) : (key, v) ∈ l := by
  induction l with
  | nil => simp [lookupKey] at h
  | cons p rest ih =>
    by_cases hp : p.1 = key
    · rw [lookupKey, if_pos hp] at h
      obtain ⟨k1, v1⟩ := p
      obtain rfl : v1 = v := by simpa using h
      obtain rfl : k1 = key := hp
      exact List.mem_cons_self _ _
    · rw [lookupKey, if_neg hp] at h
      exact List.mem_cons_of_mem _ (ih h)

theorem eq_of_fst_eq_of_nodup {l : List (K × Value V)}
    (h : (l.map Prod.fst).Nodup) {p q : K × Value V}
    (hp : p ∈ l) (hq : q ∈ l) (hfst : p.1 = q.1) : p = q := by
  induction l with
  | nil => simp at hp
  | cons a rest ih =>
    rw [List.map_cons, List.nodup_cons] at h
    rcases List.mem_cons.mp hp with hpa | hpr
    · rcases List.mem_cons.mp hq with hqa | hqr
      · rw [hpa, hqa]
      · exfalso
        apply h.1
        rw [← hpa, hfst]
        exact List.mem_map_of_mem Prod.fst hqr
    · rcases List.mem_cons.mp hq with hqa | hqr
      · exfalso
        apply h.1
        rw [← hqa, ← hfst]
        exact List.mem_map_of_mem Prod.fst hpr
      · exact ih h.2 hpr hqr

theorem eraseKey_eq_filter (key : K) (l : List (K × Value V)) :
    eraseKey key l = l.filter (fun p => decide (¬ p.1 = key)) := by
  induction l with
  | nil => rfl
  | cons p rest ih =>
    by_cases h : p.1 = key
    · rw [eraseKey, if_pos h, List.filter_cons, ih]
      simp [h]
    · rw [eraseKey, if_neg h, List.filter_cons, ih]
      simp [h]

theorem foldl_eraseKey_eq_filter (ks : List K) (l : List (K × Value V)) :
    ks.foldl (fun acc k => eraseKey k acc) l
      = l.filter (fun p => decide (p.1 ∉ ks)) := by
  induction ks generalizing l with
  | nil => simp
  | cons k ks ih =>
    rw [List.foldl_cons, ih, eraseKey_eq_filter, List.filter_filter]
    apply List.filter_congr
    intro p hp
    by_cases h1 : p.1 = k
    · simp [List.mem_cons, h1]
    · by_cases h2 : p.1 ∈ ks
      · simp [List.mem_cons, h1, h2]
      · simp [List.mem_cons, h1, h2]

theorem len_filter_eraseKey_of_expired {l : List (K × Value V)} {k : K}
    {v : Value V} {now : Nat} (hnd : (l.map Prod.fst).Nodup)
    (hl : lookupKey k l = some v) (hexp : v.is_expired now = true) :
    ((eraseKey k l).filter (fun p => !(p.2.is_expired now))).length
      = (l.filter (fun p => !(p.2.is_expired now))).length := by
  rw [eraseKey_eq_filter, List.filter_filter]
  congr 1
  apply List.filter_congr
  intro p hp
  by_cases hpk : p.1 = k
  · have hpv : p = (k, v) :=
      eq_of_fst_eq_of_nodup hnd hp (lookupKey_some_mem hl) hpk
    rw [hpv]
    simp [hexp]
  · simp [hpk]

theorem cleanup_inner_eq (m : TimedMap K V) (now : Nat) (hwf : m.WF) :
    (m.cleanup now).inner
      = m.inner.filter (fun p => !(p.2.is_expired_at now)) := by
  simp only [TimedMap.cleanup]
  by_cases hkeys :
      ((m.inner.filter (fun p => p.2.is_expired_at now)).map Prod.fst).isEmpty = true
  · rw [if_pos hkeys]
    have hnil : m.inner.filter (fun p => p.2.is_expired_at now) = [] :=
      List.map_eq_nil.mp (List.isEmpty_iff.mp hkeys)
    have hall : ∀ p ∈ m.inner, (!(p.2.is_expired_at now)) = true := by
      intro p hp
      have := List.filter_eq_nil.mp hnil p hp
      simp_all
    exact (List.filter_eq_self.mpr hall).symm
  · rw [if_neg hkeys]
    show List.foldl (fun l k => eraseKey k l) m.inner _ = _
    rw [foldl_eraseKey_eq_filter]
    apply List.filter_congr
    intro p hp
    by_cases hexp : p.2.is_expired_at now = true
    · have hmem : p.1 ∈ (m.inner.filter (fun q => q.2.is_expired_at now)).map Prod.fst :=
        List.mem_map_of_mem Prod.fst (List.mem_filter.mpr ⟨hp, hexp⟩)
      simp [hmem, hexp]
    · have hnotmem :
          p.1 ∉ (m.inner.filter (fun q => q.2.is_expired_at now)).map Prod.fst := by
        intro hmem
        rcases List.mem_map.mp hmem with ⟨q, hq, hq1⟩
        have hq2 := List.mem_filter.mp hq
        have hqp : q = p := eq_of_fst_eq_of_nodup hwf hq2.1 hp hq1
        rw [hqp] at hq2
        exact hexp hq2.2
      simp [hnotmem, Bool.eq_false_iff.mpr hexp]

theorem cleanup_mem {m : TimedMap K V} {now : Nat} {p : K × Value V}
    (hp : p ∈ (m.cleanup now).inner) :
    p ∈ m.inner ∧ p.2.is_expired_at now = false := by
  rw [TimedMap.cleanup] at hp
  by_cases hkeys :
      ((m.inner.filter (fun q => q.2.is_expired_at now)).map Prod.fst).isEmpty = true
  · rw [if_pos hkeys] at hp
    have hnil : m.inner.filter (fun q => q.2.is_expired_at now) = [] :=
      List.map_eq_nil.mp (List.isEmpty_iff.mp hkeys)
    have := List.filter_eq_nil.mp hnil p hp
    exact ⟨hp, by simp_all⟩
  · rw [if_neg hkeys] at hp
    replace hp : p ∈ List.foldl (fun l k => eraseKey k l) m.inner _ := hp
    rw [foldl_eraseKey_eq_filter] at hp
    have hp2 := List.mem_filter.mp hp
    refine ⟨hp2.1, ?_⟩
    by_contra hne
    have hexp : p.2.is_expired_at now = true := by
      cases hx : p.2.is_expired_at now
      · exact absurd hx hne
      · rfl
    have hmem : p.1 ∈ (m.inner.filter (fun q => q.2.is_expired_at now)).map Prod.fst :=
      List.mem_map_of_mem Prod.fst (List.mem_filter.mpr ⟨hp2.1, hexp⟩)
    have := hp2.2
    simp_all

theorem cleanup_of_no_expired {m : TimedMap K V} {now : Nat}
    (h : m.inner.filter (fun p => p.2.is_expired_at now) = []) :
    m.cleanup now = m := by
  rw [TimedMap.cleanup]
  simp [h]

/-- C2: expiry is strict: the wrapper is expired exactly when the current
instant is strictly greater than the stored deadline; at an instant equal to
the deadline it is not expired; a value created with lifetime zero has its
deadline equal to the creation instant and is expired exactly for instants
strictly after creation. -/
theorem Value.expiry_strict (v : Value V) (x : V) (t now : Nat) :
    (v.is_expired t = true ↔ t > v.expires)
    ∧ v.is_expired v.expires = false
    ∧ (Value.new x 0 now).expires = now
    ∧ ((Value.new x 0 now).is_expired t = true ↔ t > now) := by
  refine ⟨?_, ?_, ?_, ?_⟩ <;> simp [Value.is_expired, Value.new]

theorem Value.expiry_strict_witness :
    (⟨0, 5⟩ : Value Nat).is_expired 5 = false :=
  (Value.expiry_strict (⟨0, 5⟩ : Value Nat) 0 6 3).2.1

/-- C8: expiry monotonicity: with a fixed deadline, once a wrapper is expired
at an instant `t`, it is expired at every instant strictly after `t` (both
for the caller-supplied-instant check used by the sweep and for the
current-time check). -/
theorem Value.expiry_monotone (v : Value V) (t t1 : Nat)
    (h : v.is_expired_at t = true) (h2 : t < t1) :
    v.is_expired_at t1 = true ∧ v.is_expired t1 = true := by
  rw [Value.is_expired_at, decide_eq_true_iff] at h
  constructor
  · rw [Value.is_expired_at, decide_eq_true_iff]
    exact Nat.lt_trans h h2
  · rw [Value.is_expired, decide_eq_true_iff]
    exact Nat.lt_trans h h2

theorem Value.expiry_monotone_witness :
    (⟨0, 3⟩ : Value Nat).is_expired_at 5 = true
    ∧ (⟨0, 3⟩ : Value Nat).is_expired 5 = true :=
  Value.expiry_monotone (⟨0, 3⟩ : Value Nat) 4 5 (by decide) (by decide)

/-- C7: sweep idempotence: a second `cleanup` at the same instant, with no
intervening mutation, leaves the table exactly as the first call left it. -/
theorem TimedMap.cleanup_idempotent (m : TimedMap K V) (now : Nat) :
    (m.cleanup now).cleanup now = m.cleanup now := by
  apply cleanup_of_no_expired
  apply List.filter_eq_nil.mpr
  intro p hp
  have h := (cleanup_mem hp).2
  simp [h]

/-- C3: `is_empty` is true exactly when the raw table holds zero entries
(no expiry filtering), while `len` counts only entries not expired at call
time; for a table holding only expired entries, `len` is `0` while
`is_empty` is `false`, as in the concrete one-entry scenario. -/
theorem TimedMap.is_empty_len_divergence (m : TimedMap K V) (now : Nat) :
    (m.is_empty = true ↔ m.inner = [])
    ∧ m.len now = (m.inner.filter (fun p => !(p.2.is_expired now))).length
    ∧ ((∀ p ∈ m.inner, p.2.is_expired now = true) → m.inner ≠ [] →
        m.len now = 0 ∧ m.is_empty = false)
    ∧ (((TimedMap.new : TimedMap Nat Nat).insert 0 0 0 0).len 1 = 0
        ∧ ((TimedMap.new : TimedMap Nat Nat).insert 0 0 0 0).is_empty = false) := by
  refine ⟨?_, rfl, ?_, by decide⟩
  · rw [TimedMap.is_empty, decide_eq_true_iff, List.length_eq_zero]
  · intro hall hne
    constructor
    · rw [TimedMap.len]
      have hnil : m.inner.filter (fun p => !(p.2.is_expired now)) = [] := by
        apply List.filter_eq_nil.mpr
        intro p hp
        simp [hall p hp]
      rw [hnil]
      rfl
    · simp only [TimedMap.is_empty, decide_eq_false_iff_not, List.length_eq_zero]
      exact hne

theorem TimedMap.is_empty_len_divergence_witness :
    ((TimedMap.new : TimedMap Nat Nat).insert 0 0 0 0).len 1 = 0
    ∧ ((TimedMap.new : TimedMap Nat Nat).insert 0 0 0 0).is_empty = false :=
  (TimedMap.is_empty_len_divergence (TimedMap.new : TimedMap Nat Nat) 0).2.2.2

/-- C1: for a present entry already expired at the current instant, `get`
returns absent and physically removes the entry, so a subsequent raw lookup
returns absent and a subsequent `len` no longer counts it, with no sweep
having run; `contains` is exactly `get(key).is_some()` with the same side
effect; for a present non-expired entry, `get` returns a copy of the stored
value and leaves the table unchanged. -/
theorem TimedMap.get_lazy_eviction (m : TimedMap K V) (k : K) (v : Value V)
    (now : Nat) (hwf : m.WF) (hv : m.get_value_unchecked k = some v) :
    (v.is_expired now = true →
      (m.get k now).1 = none
      ∧ ((m.get k now).2).get_value_unchecked k = none
      ∧ ((m.get k now).2).len now = m.len now
      ∧ ((m.get k now).2).inner = eraseKey k m.inner)
    ∧ ((m.contains k now).1 = ((m.get k now).1).isSome
       ∧ (m.contains k now).2 = (m.get k now).2)
    ∧ (v.is_expired now = false →
        (m.get k now).1 = some v.value ∧ (m.get k now).2 = m) := by
  have hlk : lookupKey k m.inner = some v := hv
  refine ⟨?_, ⟨rfl, rfl⟩, ?_⟩
  · intro hexp
    have hget : m.get k now = (none, ⟨eraseKey k m.inner⟩) := by
      simp [TimedMap.get, TimedMap.get_value, TimedMap.remove,
            TimedMap.get_value_unchecked, hlk, hexp]
    rw [hget]
    exact ⟨rfl, lookupKey_eraseKey_self k m.inner,
           len_filter_eraseKey_of_expired hwf hlk hexp, rfl⟩
  · intro hexp
    have hget : m.get k now = (some v.value, m) := by
      simp [TimedMap.get, TimedMap.get_value, TimedMap.get_value_unchecked,
            hlk, hexp]
    rw [hget]
    exact ⟨rfl, rfl⟩

theorem TimedMap.get_lazy_eviction_witness :
    ((⟨[(1, ⟨5, 3⟩), (2, ⟨7, 100⟩)]⟩ : TimedMap Nat Nat).get 1 4).1 = none :=
  ((TimedMap.get_lazy_eviction (⟨[(1, ⟨5, 3⟩), (2, ⟨7, 100⟩)]⟩ : TimedMap Nat Nat)
      1 ⟨5, 3⟩ 4 (by unfold TimedMap.WF; decide) (by decide)).1 (by decide)).1

/-- C4: `remove` physically removes a present entry regardless of expiry and
returns the stored value only when the entry was not expired; for an
expired-but-present entry it returns absent while still deleting it, so a
subsequent `contains` is false; for an absent key it returns absent and the
table is unchanged. -/
theorem TimedMap.remove_semantics (m : TimedMap K V) (k : K) (now : Nat) :
    (m.get_value_unchecked k = none → m.remove k now = (none, m))
    ∧ (∀ v, m.get_value_unchecked k = some v →
        ((m.remove k now).2.inner = eraseKey k m.inner
         ∧ (m.remove k now).2.get_value_unchecked k = none
         ∧ ((m.remove k now).2.contains k now).1 = false
         ∧ (m.remove k now).1
             = (if v.is_expired now then none else some v.value))) := by
  constructor
  · intro h
    have hlk : lookupKey k m.inner = none := h
    simp [TimedMap.remove, hlk]
  · intro v hv
    have hlk : lookupKey k m.inner = some v := hv
    have hrem : m.remove k now = (v.value_checked now, ⟨eraseKey k m.inner⟩) := by
      simp [TimedMap.remove, hlk]
    rw [hrem]
    refine ⟨rfl, lookupKey_eraseKey_self k m.inner, ?_, rfl⟩
    have hlk2 : lookupKey k (eraseKey k m.inner) = none :=
      lookupKey_eraseKey_self k m.inner
    simp [TimedMap.contains, TimedMap.get, TimedMap.get_value,
          TimedMap.get_value_unchecked, hlk2]

theorem TimedMap.remove_semantics_witness :
    ((⟨[(1, ⟨5, 3⟩)]⟩ : TimedMap Nat Nat).remove 1 10).1
      = (if (⟨5, 3⟩ : Value Nat).is_expired 10 then none else some 5) :=
  ((TimedMap.remove_semantics (⟨[(1, ⟨5, 3⟩)]⟩ : TimedMap Nat Nat) 1 10).2
    ⟨5, 3⟩ (by decide)).2.2.2

/-- C5: for a present non-expired entry, `refresh` returns true and resets
the deadline absolutely to `now + new_lifetime` (independent of the previous
deadline), while `extend` returns true and sets it to the previous deadline
plus the added lifetime; both return false when the key is absent or the
entry is already expired, and a call on an expired key also evicts that
entry as a side effect. -/
theorem TimedMap.refresh_extend_semantics (m : TimedMap K V) (k : K)
    (v : Value V) (d now : Nat) :
    (m.get_value_unchecked k = some v → v.is_expired now = false →
      ((m.refresh k d now).1 = true
       ∧ (m.refresh k d now).2.get_value_unchecked k = some ⟨v.value, now + d⟩
       ∧ (m.extend k d now).1 = true
       ∧ (m.extend k d now).2.get_value_unchecked k
           = some ⟨v.value, v.expires + d⟩))
    ∧ (m.get_value_unchecked k = none →
        m.refresh k d now = (false, m) ∧ m.extend k d now = (false, m))
    ∧ (m.get_value_unchecked k = some v → v.is_expired now = true →
        m.refresh k d now = (false, ⟨eraseKey k m.inner⟩)
        ∧ m.extend k d now = (false, ⟨eraseKey k m.inner⟩)) := by
  refine ⟨?_, ?_, ?_⟩
  · intro hv hexp
    have hlk : lookupKey k m.inner = some v := hv
    have hgv : m.get_value k now = (some v, m) := by
      simp [TimedMap.get_value, TimedMap.get_value_unchecked, hlk, hexp]
    have hr : m.refresh k d now
        = (true, ⟨insertPair k (v.set_expiry d now) m.inner⟩) := by
      simp [TimedMap.refresh, hgv]
    have he : m.extend k d now
        = (true, ⟨insertPair k (v.add_expiry d) m.inner⟩) := by
      simp [TimedMap.extend, hgv]
    rw [hr, he]
    refine ⟨rfl, ?_, rfl, ?_⟩
    · simp [TimedMap.get_value_unchecked, insertPair, lookupKey, Value.set_expiry]
    · simp [TimedMap.get_value_unchecked, insertPair, lookupKey, Value.add_expiry]
  · intro hv
    have hlk : lookupKey k m.inner = none := hv
    have hgv : m.get_value k now = (none, m) := by
      simp [TimedMap.get_value, TimedMap.get_value_unchecked, hlk]
    constructor
    · simp [TimedMap.refresh, hgv]
    · simp [TimedMap.extend, hgv]
  · intro hv hexp
    have hlk : lookupKey k m.inner = some v := hv
    have hgv : m.get_value k now = (none, ⟨eraseKey k m.inner⟩) := by
      simp [TimedMap.get_value, TimedMap.get_value_unchecked, TimedMap.remove,
            hlk, hexp]
    constructor
    · simp [TimedMap.refresh, hgv]
    · simp [TimedMap.extend, hgv]

theorem TimedMap.refresh_extend_semantics_witness :
    ((⟨[(1, ⟨5, 10⟩)]⟩ : TimedMap Nat Nat).refresh 1 20 4).2.get_value_unchecked 1
      = some ⟨5, 24⟩
    ∧ ((⟨[(1, ⟨5, 10⟩)]⟩ : TimedMap Nat Nat).extend 1 20 4).2.get_value_unchecked 1
      = some ⟨5, 30⟩ :=
  ⟨((TimedMap.refresh_extend_semantics (⟨[(1, ⟨5, 10⟩)]⟩ : TimedMap Nat Nat)
      1 ⟨5, 10⟩ 20 4).1 (by decide) (by decide)).2.1,
   ((TimedMap.refresh_extend_semantics (⟨[(1, ⟨5, 10⟩)]⟩ : TimedMap Nat Nat)
      1 ⟨5, 10⟩ 20 4).1 (by decide) (by decide)).2.2.2⟩

/-- C10: on a present non-expired entry, `refresh` and `extend` change only
the deadline of that entry: the stored value for the key is preserved, and
every other key (including expired, not-yet-evicted entries) maps to exactly
the wrapper it mapped to before. -/
theorem TimedMap.refresh_extend_frame (m : TimedMap K V) (k : K) (v : Value V)
    (d now : Nat) (hv : m.get_value_unchecked k = some v)
    (hexp : v.is_expired now = false) :
    (∀ v1, (m.refresh k d now).2.get_value_unchecked k = some v1 →
        v1.value = v.value)
    ∧ (∀ k1, k1 ≠ k →
        (m.refresh k d now).2.get_value_unchecked k1 = m.get_value_unchecked k1)
    ∧ (∀ v1, (m.extend k d now).2.get_value_unchecked k = some v1 →
        v1.value = v.value)
    ∧ (∀ k1, k1 ≠ k →
        (m.extend k d now).2.get_value_unchecked k1 = m.get_value_unchecked k1) := by
  have hlk : lookupKey k m.inner = some v := hv
  have hgv : m.get_value k now = (some v, m) := by
    simp [TimedMap.get_value, TimedMap.get_value_unchecked, hlk, hexp]
  have hr : (m.refresh k d now).2 = ⟨insertPair k (v.set_expiry d now) m.inner⟩ := by
    simp [TimedMap.refresh, hgv]
  have he : (m.extend k d now).2 = ⟨insertPair k (v.add_expiry d) m.inner⟩ := by
    simp [TimedMap.extend, hgv]
  rw [hr, he]
  refine ⟨?_, ?_, ?_, ?_⟩
  · intro v1 hv1
    have hl1 : lookupKey k (insertPair k (v.set_expiry d now) m.inner)
        = some v1 := hv1
    rw [insertPair, lookupKey, if_pos rfl] at hl1
    injection hl1 with h1
    rw [← h1]
    rfl
  · intro k1 hk1
    have : lookupKey k1 (insertPair k (v.set_expiry d now) m.inner)
        = lookupKey k1 m.inner := by
      rw [insertPair, lookupKey, if_neg (fun h => hk1 h.symm)]
      exact lookupKey_eraseKey_ne k k1 m.inner hk1
    exact this
  · intro v1 hv1
    have hl1 : lookupKey k (insertPair k (v.add_expiry d) m.inner)
        = some v1 := hv1
    rw [insertPair, lookupKey, if_pos rfl] at hl1
    injection hl1 with h1
    rw [← h1]
    rfl
  · intro k1 hk1
    have : lookupKey k1 (insertPair k (v.add_expiry d) m.inner)
        = lookupKey k1 m.inner := by
      rw [insertPair, lookupKey, if_neg (fun h => hk1 h.symm)]
      exact lookupKey_eraseKey_ne k k1 m.inner hk1
    exact this

theorem TimedMap.refresh_extend_frame_witness :
    ((⟨[(1, ⟨5, 10⟩), (2, ⟨7, 0⟩)]⟩ : TimedMap Nat Nat).refresh 1 20 4).2.get_value_unchecked 2
      = (⟨[(1, ⟨5, 10⟩), (2, ⟨7, 0⟩)]⟩ : TimedMap Nat Nat).get_value_unchecked 2 :=
  (TimedMap.refresh_extend_frame (⟨[(1, ⟨5, 10⟩), (2, ⟨7, 0⟩)]⟩ : TimedMap Nat Nat)
    1 ⟨5, 10⟩ 20 4 (by decide) (by decide)).2.1 2 (by decide)

/-- C6: `cleanup` with a single snapshot instant removes exactly the entries
expired at that instant: afterwards the table is the sub-table of entries not
expired at the snapshot, each kept with its value and deadline unchanged; in
particular no expired entry remains, every non-expired entry remains, and
when nothing is expired the table is returned untouched. -/
theorem TimedMap.cleanup_removes_expired (m : TimedMap K V) (now : Nat)
    (hwf : m.WF) :
    ((m.cleanup now).inner
       = m.inner.filter (fun p => !(p.2.is_expired_at now)))
    ∧ ((∀ p ∈ m.inner, p.2.is_expired_at now = false) → m.cleanup now = m)
    ∧ (∀ p ∈ (m.cleanup now).inner, p.2.is_expired_at now = false)
    ∧ (∀ p ∈ m.inner, p.2.is_expired_at now = false →
        p ∈ (m.cleanup now).inner) := by
  have hinner := cleanup_inner_eq m now hwf
  refine ⟨hinner, ?_, ?_, ?_⟩
  · intro hall
    apply cleanup_of_no_expired
    apply List.filter_eq_nil.mpr
    intro p hp
    simp [hall p hp]
  · intro p hp
    exact (cleanup_mem hp).2
  · intro p hp hexp
    rw [hinner]
    exact List.mem_filter.mpr ⟨hp, by simp [hexp]⟩

theorem TimedMap.cleanup_removes_expired_witness :
    ((⟨[(1, ⟨5, 3⟩), (2, ⟨7, 100⟩)]⟩ : TimedMap Nat Nat).cleanup 10).inner
      = ([(1, ⟨5, 3⟩), (2, ⟨7, 100⟩)] : List (Nat × Value Nat)).filter
          (fun p => !(p.2.is_expired_at 10)) :=
  (TimedMap.cleanup_removes_expired (⟨[(1, ⟨5, 3⟩), (2, ⟨7, 100⟩)]⟩ : TimedMap Nat Nat)
    10 (by unfold TimedMap.WF; decide)).1

/-- C9 counterexample: a reachable quiescent table state that does contain an
entry whose deadline has already passed.  Inserting key 0 with lifetime 0 at
instant 0 puts the wrapper with deadline 0 into the table; at the later
observed instant 1 (e.g. after a read-only `len` call, which performs no
eviction) the entry is expired yet still physically present, so the claimed
invariant fails. -/
theorem TimedMap.invariant_counterexample :
    ((TimedMap.new : TimedMap Nat Nat).insert 0 0 0 0).get_value_unchecked 0
      = some ⟨0, 0⟩
    ∧ (⟨0, 0⟩ : Value Nat).is_expired 1 = true
    ∧ ((TimedMap.new : TimedMap Nat Nat).insert 0 0 0 0).len 1 = 0
    ∧ ((TimedMap.new : TimedMap Nat Nat).insert 0 0 0 0).is_empty = false := by
  refine ⟨by decide, by decide, by decide, by decide⟩

/-- C9 (amended): expired entries may linger in the table, but the
expiry-discovery paths restore the invariant pointwise: after `get` on a key,
no expired entry for that key remains in the table, and after `cleanup`, no
entry expired at the snapshot instant remains anywhere in the table. -/
theorem TimedMap.no_expired_after_access (m : TimedMap K V) (k : K)
    (now : Nat) :
    (∀ v, ((m.get k now).2).get_value_unchecked k = some v →
        v.is_expired now = false)
    ∧ (∀ p ∈ (m.cleanup now).inner, p.2.is_expired_at now = false) := by
  constructor
  · intro v hv
    cases hlk : lookupKey k m.inner with
    | none =>
      have hget : (m.get k now).2 = m := by
        simp [TimedMap.get, TimedMap.get_value, TimedMap.get_value_unchecked, hlk]
      rw [hget, TimedMap.get_value_unchecked, hlk] at hv
      cases hv
    | some w =>
      cases hexp : w.is_expired now with
      | true =>
        have hget : (m.get k now).2 = ⟨eraseKey k m.inner⟩ := by
          simp [TimedMap.get, TimedMap.get_value, TimedMap.remove,
                TimedMap.get_value_unchecked, hlk, hexp]
        rw [hget] at hv
        have hnone : lookupKey k (eraseKey k m.inner) = some v := hv
        rw [lookupKey_eraseKey_self] at hnone
        cases hnone
      | false =>
        have hget : (m.get k now).2 = m := by
          simp [TimedMap.get, TimedMap.get_value, TimedMap.get_value_unchecked,
                hlk, hexp]
        rw [hget, TimedMap.get_value_unchecked, hlk] at hv
        injection hv with h1
        rw [← h1]
        exact hexp
  · intro p hp
    exact (cleanup_mem hp).2

theorem TimedMap.no_expired_after_access_witness :
    (⟨5, 10⟩ : Value Nat).is_expired 4 = false :=
  (TimedMap.no_expired_after_access (⟨[(1, ⟨5, 10⟩)]⟩ : TimedMap Nat Nat) 1 4).1
    ⟨5, 10⟩ (by decide)
